import Mathlib

/-!
# Verification of blazectl against its specification

Shallow embedding of the blazectl time tracker (sources: `src/active.rs`,
`src/store.rs`, `src/readme.rs`, `src/util.rs`).  Rust `i64` values are
modelled as `Int` (no i64 overflow arises for realistic durations and the
spec works at this level), UTC instants as epoch seconds (`Int`), calendar
days as day numbers (`Int`, `previous_day` = subtract one), and strings as
Lean `String`/`List Char`.  External library routines (RFC-3339
formatting/parsing from the `time` crate, serde_json object round-trip)
are taken as parameters of the embedded functions.
-/

namespace Blazectl

/-! ## Decimal numerals

Rust's `format!("{}", n)` for a non-negative integer prints the usual
base-10 numeral; `str::parse::<i64>()` reads one (failing on an empty or
non-digit string).  Both are modelled here.  `decCharsAux` peels one fuel
unit per digit; fuel `n + 1` is always sufficient. -/

def digitChar (d : Nat) : Char := Char.ofNat (48 + d)

def decCharsAux : Nat → Nat → List Char
  | 0, _ => []
  | fuel + 1, n => if n = 0 then [] else decCharsAux fuel (n / 10) ++ [digitChar (n % 10)]

/-- The base-10 numeral of `n`, most significant digit first. -/
def decChars (n : Nat) : List Char := if n = 0 then [ '0' ] else decCharsAux (n + 1) n

/-- Rust `format!("{}", n)` for `n : u64`-like values. -/
def natDecimal (n : Nat) : String := ⟨decChars n⟩

/-- Big-endian decimal value of a digit string. -/
def bigEndianVal (cs : List Char) : Nat :=
  cs.foldl (fun a c => 10 * a + (c.toNat - 48)) 0

/-- Rust `str::parse::<i64>()` restricted to the non-negative numerals that
occur in this program: succeeds exactly on a non-empty all-digit string. -/
def parseNat? (cs : List Char) : Option Nat :=
  if cs ≠ [] ∧ cs.all Char.isDigit then some (bigEndianVal cs) else none

/-! ## `store.rs`: duration serialisation (`ser_dur_iso`) -/

/-- `ser_dur_iso` from `src/store.rs`: clamp negative seconds to zero, then
print `PT{h}H{m}M{s}S`.  `Int.toNat` is exactly the clamp
`if secs < 0 { 0 }`. -/
def serDurChars (d : Int) : List Char :=
  let secs := d.toNat
  let h := secs / 3600
  let m := (secs % 3600) / 60
  let s_rem := secs % 60
  [ 'P', 'T' ] ++ decChars h ++ [ 'H' ] ++ decChars m ++ [ 'M' ] ++ decChars s_rem ++ [ 'S' ]

def ser_dur_iso (d : Int) : String := ⟨serDurChars d⟩

/-! ## `readme.rs`: duration parsing (`parse_duration_seconds`) -/

/-- Rust `str::trim`: drop ASCII/Unicode whitespace from both ends. -/
def trimChars (cs : List Char) : List Char :=
  (((cs.dropWhile Char.isWhitespace).reverse.dropWhile Char.isWhitespace)).reverse

/-- The accumulation loop of `parse_duration_seconds`: digits are pushed
into the `num` buffer; any other character first converts the buffer with
`parse::<i64>().unwrap_or(0)`, then `H`/`M`/`S` store it into the
corresponding field, and the buffer is cleared. -/
def pdsGo : List Char → List Char → Int → Int → Int → Int
  | [], _num, hours, mins, secs => hours * 3600 + mins * 60 + secs
  | c :: rest, num, hours, mins, secs =>
    if c.isDigit then pdsGo rest (num ++ [c]) hours mins secs
    else
      let val : Int := (parseNat? num).getD 0
      match c with
      | 'H' => pdsGo rest [] val mins secs
      | 'M' => pdsGo rest [] hours val secs
      | 'S' => pdsGo rest [] hours mins val
      | _ => pdsGo rest [] hours mins secs

/-- `parse_duration_seconds` from `src/readme.rs`. -/
def parseDurChars (cs : List Char) : Int :=
  let t := trimChars cs
  if t.take 2 = [ 'P', 'T' ] then pdsGo (t.drop 2) [] 0 0 0 else 0

def parse_duration_seconds (s : String) : Int := parseDurChars s.data


/-! ## `store.rs`: entries and the monthly partition file

`Entry.duration` is a `time::Duration`, modelled by its `whole_seconds`
(an `Int`); `start`/`end` are the RFC-3339 strings the program stores. -/

structure Entry where
  activity : String
  start : String
  end_ : String
  duration : Int
  deriving DecidableEq, Repr

/-- The serde_json line written for an `Entry`: a flat JSON object with
four string fields.  serde_json's object encoding is the external
collaborator and is modelled as the identity on the fields; the
repository-specific part is the `ser_dur_iso` duration codec. -/
structure JsonLine where
  activity : String
  start : String
  end_ : String
  duration : String
  deriving DecidableEq, Repr

def entryToJson (e : Entry) : JsonLine :=
  { activity := e.activity, start := e.start, end_ := e.end_,
    duration := ser_dur_iso e.duration }

/-- Year and month of an `OffsetDateTime`, the only parts `month_file`
reads.  The month is always in `1..=12`, so the Rust
`u8::try_from(..).unwrap_or(1)` is the identity here. -/
structure YM where
  year : Int
  month : Nat
  deriving DecidableEq, Repr

/-- Rust `format!("{}", z)` for `z : i64`. -/
def intDecimal (z : Int) : String :=
  if z < 0 then "-" ++ natDecimal z.natAbs else natDecimal z.toNat

/-- Rust `format!("{:02}", m)`: zero-pad to width 2. -/
def pad2 (m : Nat) : String := if m < 10 then "0" ++ natDecimal m else natDecimal m

/-- `month_file` from `src/store.rs`. -/
def month_file (dt : YM) : String :=
  ".blaze/track-" ++ intDecimal dt.year ++ "-" ++ pad2 dt.month ++ ".jsonl"

/-- The path `append_entry` (`src/store.rs`) writes to: it is
`month_file(now_utc())` — derived from the wall clock at the moment of the
call; the entry `e` plays no part in the choice. -/
def append_entry_path (now : YM) (_e : Entry) : String := month_file now


/-! ## `active.rs`: session lifecycle

The active state file holds an optional RFC-3339 start string per tag.
`iso`/`parse_iso` (`src/util.rs`) wrap the `time` crate's RFC-3339
formatter/parser; they are passed in as parameters `isoF : Int → String`
and `parseIso : String → Option Int` over epoch seconds. -/

structure Active where
  train : Option String
  battle : Option String
  deriving DecidableEq, Repr

inductive BlazeError where
  | unknownTag (tag : String)
  | parseError
  deriving DecidableEq, Repr

/-- `start` from `src/active.rs`, as a pure state transformer: the result
is the active state persisted when the call returns (when the tag is
already running the function returns without calling `save`, so the state
is unchanged; when the *other* tag is running it only prints an advisory
and proceeds). -/
def Active.start (isoF : Int → String) (a : Active) (now : Int) (tag : String) :
    Except BlazeError Active :=
  if tag = "train" then
    match a.train with
    | some _ => .ok a
    | none => .ok { a with train := some (isoF now) }
  else if tag = "battle" then
    match a.battle with
    | some _ => .ok a
    | none => .ok { a with battle := some (isoF now) }
  else .error (.unknownTag tag)

deriving instance DecidableEq for Except

/-- Outcome of `stop`: `saved` is the state written to the state file by
`save(&a)` (`none` when `save` is never called, leaving the file as it
was), `result` is the function's return value. -/
structure StopOut where
  saved : Option Active
  result : Except BlazeError (Option Entry)
  deriving DecidableEq, Repr

/-- `stop` from `src/active.rs`: take the tag's stored start string; if
absent return `Ok(None)` without saving; otherwise persist the cleared
state *first*, then parse the stored start (an error here surfaces after
the save), and build the completed record with `duration = end - start`. -/
def Active.stop (parseIso : String → Option Int) (isoF : Int → String)
    (a : Active) (endT : Int) (tag : String) : StopOut :=
  if tag = "train" then
    match a.train with
    | none => ⟨none, .ok none⟩
    | some startIso =>
      let a' : Active := { a with train := none }
      match parseIso startIso with
      | none => ⟨some a', .error .parseError⟩
      | some startT =>
        ⟨some a', .ok (some ⟨tag, startIso, isoF endT, endT - startT⟩)⟩
  else if tag = "battle" then
    match a.battle with
    | none => ⟨none, .ok none⟩
    | some startIso =>
      let a' : Active := { a with battle := none }
      match parseIso startIso with
      | none => ⟨some a', .error .parseError⟩
      | some startT =>
        ⟨some a', .ok (some ⟨tag, startIso, isoF endT, endT - startT⟩)⟩
  else ⟨none, .error (.unknownTag tag)⟩

/-- The stored start string of a tag (helper for stating tag-generic
properties). -/
def Active.tagStart (a : Active) (tag : String) : Option String :=
  if tag = "train" then a.train else a.battle

/-- The state with a tag's start string cleared (helper). -/
def Active.clearTag (a : Active) (tag : String) : Active :=
  if tag = "train" then { a with train := none } else { a with battle := none }

/-! ## `readme.rs`: aggregation and streaks

Calendar dates are day numbers (`Int`); `Date::previous_day()` is
subtraction by one (the `None` case exists only at the `time` crate's
minimum representable date, far outside any reachable input).  The
per-day `HashMap<Date, Totals>` with `unwrap_or_default` lookups is a
total function `Int → Totals`. -/

structure Totals where
  train : Int
  battle : Int
  deriving DecidableEq, Repr

def Totals.zero : Totals := ⟨0, 0⟩

/-- `Totals::add` from `src/readme.rs`: unknown activity strings are
ignored. -/
def Totals.add (t : Totals) (tag : String) (secs : Int) : Totals :=
  if tag = "train" then { t with train := t.train + secs }
  else if tag = "battle" then { t with battle := t.battle + secs }
  else t

/-- `Totals::total`. -/
def Totals.total (t : Totals) : Int := t.train + t.battle

/-- The loop body of `streak_days`.  The Rust loop increments `count`
while the predicate holds and breaks as soon as `count > 365`; `fuel`
counts the remaining iterations the cap still allows
(`fuel = 365 - count` at every entry), so `fuel = 0` right after an
increment is exactly the Rust `count > 365` break with `count = 366`. -/
def streakGo (perDay : Int → Totals) (pred : Totals → Bool) :
    Nat → Int → Nat → Nat
  | fuel, d, count =>
    if pred (perDay d) then
      match fuel with
      | 0 => count + 1
      | fuel + 1 => streakGo perDay pred fuel (d - 1) (count + 1)
    else count

/-- `streak_days` from `src/readme.rs`. -/
def streak_days (perDay : Int → Totals) (endDay : Int) (pred : Totals → Bool) : Nat :=
  streakGo perDay pred 365 endDay 0

/-- One step of the aggregation loop in `render_all`
(`src/readme.rs`): the running pair is (all-time totals, per-day totals);
the duration string is decoded with `parse_duration_seconds`, the
all-time totals always get the seconds, and the per-day map is bumped at
the start timestamp's calendar date when the start string parses
(`parseDate` stands for `OffsetDateTime::parse(..).map(|t| t.date())`). -/
def aggStep (parseDate : String → Option Int)
    (st : Totals × (Int → Totals)) (j : JsonLine) : Totals × (Int → Totals) :=
  let secs := parse_duration_seconds j.duration
  let allTime := st.1.add j.activity secs
  match parseDate j.start with
  | some day => (allTime, fun d => if d = day then (st.2 d).add j.activity secs else st.2 d)
  | none => (allTime, st.2)

/-- The aggregation pass of `render_all` over the unordered entry list. -/
def aggregate (parseDate : String → Option Int) (entries : List JsonLine) :
    Totals × (Int → Totals) :=
  entries.foldl (aggStep parseDate) (Totals.zero, fun _ => Totals.zero)

/-! ## Concrete instances used in counterexamples and witnesses -/

/-- The ANY-activity streak predicate `|t| t.total() > 0` from
`render_all`. -/
def predAny : Totals → Bool := fun t => decide (0 < t.total)

/-- A history in which every day has activity (366+ consecutive active
days). -/
def everyDayActive : Int → Totals := fun _ => ⟨1, 0⟩

/-- The spec's first streak example: per-day totals `[5,0,3,3,0]` minutes
on days `0..4`, day `4` being today. -/
def exampleDaysA : Int → Totals := fun d =>
  if d = 0 then ⟨5, 0⟩ else if d = 2 then ⟨3, 0⟩ else if d = 3 then ⟨3, 0⟩ else ⟨0, 0⟩

/-- The spec's second streak example: per-day totals `[0,3,3,5]` on days
`0..3`, day `3` being today. -/
def exampleDaysB : Int → Totals := fun d =>
  if d = 1 then ⟨3, 0⟩ else if d = 2 then ⟨3, 0⟩ else if d = 3 then ⟨5, 0⟩ else ⟨0, 0⟩

/-- A session that starts in January 2024 and ends (and is appended)
in February 2024. -/
def monthCrossingEntry : Entry :=
  { activity := "train", start := "2024-01-31T23:58:00Z",
    end_ := "2024-02-01T00:02:00Z", duration := 240 }

/-- Concrete RFC-3339 stand-ins for witnesses: the formatter prints the
epoch second in decimal, and the parser inverts it on the one value the
witness uses. -/
def isoF0 : Int → String := intDecimal

def parseIso0 : String → Option Int := fun s => if s = intDecimal 5 then some 5 else none

/-- A parser that rejects everything (for the stop-on-corrupt-state
witness). -/
def parseIsoNone : String → Option Int := fun _ => none

def jsonA : JsonLine :=
  { activity := "train", start := "2024-01-01T10:00:00Z", end_ := "2024-01-01T11:00:00Z",
    duration := "PT1H0M0S" }

def jsonB : JsonLine :=
  { activity := "battle", start := "2024-01-02T10:00:00Z", end_ := "2024-01-02T10:30:00Z",
    duration := "PT0H30M0S" }

/-- A date parser stand-in for the aggregation witness. -/
def parseDate0 : String → Option Int := fun s =>
  if s = "2024-01-01T10:00:00Z" then some 0
  else if s = "2024-01-02T10:00:00Z" then some 1 else none

/-! ## Library-level lemmas: the duration codec round trip -/

/-! ### Correctness of the numeral round trip -/

theorem digitChar_toNat {d : Nat} (h : d < 10) : (digitChar d).toNat = 48 + d := by
  interval_cases d <;> rfl

theorem digitChar_isDigit {d : Nat} (h : d < 10) : (digitChar d).isDigit = true := by
  interval_cases d <;> rfl

theorem decCharsAux_isDigit {fuel n : Nat} :
    ∀ c ∈ decCharsAux fuel n, c.isDigit = true := by
  induction fuel generalizing n with
  | zero => simp [decCharsAux]
  | succ fuel ih =>
    intro c hc
    rw [decCharsAux] at hc
    by_cases h0 : n = 0
    · simp [h0] at hc
    · simp only [h0, if_false, List.mem_append, List.mem_singleton] at hc
      rcases hc with hc | hc
      · exact ih c hc
      · subst hc; exact digitChar_isDigit (Nat.mod_lt _ (by omega))

theorem decCharsAux_foldl {fuel : Nat} :
    ∀ {n : Nat} (a : Nat), n ≤ fuel →
      (decCharsAux fuel n).foldl (fun x c => 10 * x + (c.toNat - 48)) a
        = a * 10 ^ (decCharsAux fuel n).length + n := by
  induction fuel with
  | zero =>
    intro n a hn
    interval_cases n
    simp [decCharsAux]
  | succ fuel ih =>
    intro n a hn
    rw [decCharsAux]
    by_cases h0 : n = 0
    · simp [h0]
    · have hd : n / 10 ≤ fuel := by omega
      simp only [h0, if_false, List.foldl_append, List.length_append,
        List.foldl_cons, List.foldl_nil, List.length_singleton]
      rw [ih a hd, digitChar_toNat (Nat.mod_lt _ (by omega))]
      have hmod := Nat.div_add_mod n 10
      ring_nf
      omega

theorem bigEndianVal_decChars (n : Nat) : bigEndianVal (decChars n) = n := by
  unfold bigEndianVal decChars
  by_cases h0 : n = 0
  · simp [h0]
  · simp only [h0, if_false]
    rw [decCharsAux_foldl 0 (Nat.le_succ n)]
    simp

theorem decChars_ne_nil (n : Nat) : decChars n ≠ [] := by
  unfold decChars
  by_cases h0 : n = 0
  · simp [h0]
  · simp only [h0, if_false]
    rw [decCharsAux]
    simp [h0]

theorem decChars_isDigit (n : Nat) : ∀ c ∈ decChars n, c.isDigit = true := by
  unfold decChars
  by_cases h0 : n = 0
  · simp [h0]
  · simp only [h0, if_false]
    exact decCharsAux_isDigit

theorem parseNat?_decChars (n : Nat) : parseNat? (decChars n) = some n := by
  unfold parseNat?
  rw [if_pos ⟨decChars_ne_nil n, by simpa [List.all_eq_true] using decChars_isDigit n⟩,
    bigEndianVal_decChars]

theorem pdsGo_digits {dl : List Char} (hdl : ∀ c ∈ dl, c.isDigit = true) :
    ∀ (l num : List Char) (hours mins secs : Int),
      pdsGo (dl ++ l) num hours mins secs = pdsGo l (num ++ dl) hours mins secs := by
  induction dl with
  | nil => intro l num hours mins secs; simp
  | cons c dl ih =>
    intro l num hours mins secs
    have hc : c.isDigit = true := hdl c (List.mem_cons_self c dl)
    have hrest : ∀ c ∈ dl, c.isDigit = true := fun x hx => hdl x (List.mem_cons_of_mem c hx)
    rw [List.cons_append, pdsGo, if_pos hc, ih hrest]
    simp

theorem trimChars_pt {l : List Char} :
    trimChars ([ 'P', 'T' ] ++ l ++ [ 'S' ]) = [ 'P', 'T' ] ++ l ++ [ 'S' ] := by
  unfold trimChars
  have h1 : ([ 'P', 'T' ] ++ l ++ [ 'S' ]).dropWhile Char.isWhitespace
      = [ 'P', 'T' ] ++ l ++ [ 'S' ] := by
    rw [List.append_assoc, List.cons_append, List.dropWhile_cons]
    simp
  have h2 : ([ 'P', 'T' ] ++ l ++ [ 'S' ]).reverse = 'S' :: ([ 'P', 'T' ] ++ l).reverse := by
    rw [List.reverse_append]; rfl
  rw [h1, h2, List.dropWhile_cons]
  simp [← h2]

/-- The repository's own duration codec round-trips: parsing the
serialised `PT{h}H{m}M{s}S` string recovers the clamped seconds value. -/
theorem parse_ser_dur (d : Int) :
    parse_duration_seconds (ser_dur_iso d) = max d 0 := by
  show parseDurChars (serDurChars d) = max d 0
  unfold parseDurChars serDurChars
  set secs := d.toNat with hsecs
  set h := secs / 3600 with hh
  set m := secs % 3600 / 60 with hm
  set s := secs % 60 with hs
  have hshape : [ 'P', 'T' ] ++ decChars h ++ [ 'H' ] ++ decChars m ++ [ 'M' ]
      ++ decChars s ++ [ 'S' ]
      = [ 'P', 'T' ] ++ (decChars h ++ [ 'H' ] ++ decChars m ++ [ 'M' ] ++ decChars s) ++ [ 'S' ] := by
    simp
  rw [hshape, trimChars_pt]
  have htake : ([ 'P', 'T' ]
      ++ (decChars h ++ [ 'H' ] ++ decChars m ++ [ 'M' ] ++ decChars s) ++ [ 'S' ]).take 2
      = [ 'P', 'T' ] := by
    simp [List.take_append]
  have hdrop : ([ 'P', 'T' ]
      ++ (decChars h ++ [ 'H' ] ++ decChars m ++ [ 'M' ] ++ decChars s) ++ [ 'S' ]).drop 2
      = decChars h ++ ([ 'H' ] ++ (decChars m ++ ([ 'M' ] ++ (decChars s ++ [ 'S' ])))) := by
    simp
  simp only [htake, hdrop]
  rw [if_true]
  rw [pdsGo_digits (decChars_isDigit h) _ []]
  rw [List.singleton_append, pdsGo]
  rw [if_neg (by decide)]
  simp only [List.nil_append, parseNat?_decChars, Option.getD_some]
  rw [pdsGo_digits (decChars_isDigit m) _ []]
  rw [List.singleton_append, pdsGo]
  rw [if_neg (by decide)]
  simp only [List.nil_append, parseNat?_decChars, Option.getD_some]
  rw [pdsGo_digits (decChars_isDigit s) _ []]
  rw [pdsGo]
  rw [if_neg (by decide)]
  simp only [List.nil_append, parseNat?_decChars, Option.getD_some, pdsGo]
  have : (h : Int) * 3600 + m * 60 + s = secs := by
    rw [hh, hm, hs]
    push_cast
    omega
  rw [this, hsecs]
  omega

/-! ## Claim C1: which monthly partition does `append` write to? -/

/-- C1 (amended): `append_entry` derives the partition file name from the
UTC year-month of the wall clock at the moment the append is executed
(`month_file(now_utc())`); the record — in particular its `start`
timestamp — plays no part in the choice of file. -/
theorem append_partition_from_clock (now : YM) (e e' : Entry) :
    append_entry_path now e
      = ".blaze/track-" ++ intDecimal now.year ++ "-" ++ pad2 now.month ++ ".jsonl"
    ∧ append_entry_path now e = append_entry_path now e' :=
  ⟨rfl, rfl⟩

/-- C1 (counterexample): a session starting `2024-01-31T23:58:00Z` but
appended in February 2024 is written to `track-2024-02.jsonl`, not to the
January partition that the claim's "derived from the UTC year-month of
the record's `start`" would require. -/
theorem append_partition_not_from_start :
    append_entry_path ⟨2024, 2⟩ monthCrossingEntry = ".blaze/track-2024-02.jsonl"
    ∧ ".blaze/track-2024-02.jsonl" ≠ ".blaze/track-2024-01.jsonl" := by
  decide

/-! ## Claims C2 and C3: streak counters -/

theorem streakGo_le (perDay : Int → Totals) (pred : Totals → Bool) :
    ∀ (fuel : Nat) (d : Int) (count : Nat),
      streakGo perDay pred fuel d count ≤ count + fuel + 1 := by
  intro fuel
  induction fuel with
  | zero =>
    intro d count
    rw [streakGo]
    split
    · omega
    · omega
  | succ fuel ih =>
    intro d count
    rw [streakGo]
    split
    · exact le_trans (ih (d - 1) (count + 1)) (by omega)
    · omega

/-- C2 (amended): each streak counter walks backward from the end day,
stops at the first day failing its predicate, and the walk is bounded:
the cap check `count > 365` runs *after* the increment, so a counter can
reach 366 but never exceeds 366. -/
theorem streak_days_bounded (perDay : Int → Totals) (endDay : Int) (pred : Totals → Bool) :
    streak_days perDay endDay pred ≤ 366
    ∧ (pred (perDay endDay) = false → streak_days perDay endDay pred = 0) := by
  constructor
  · exact streakGo_le perDay pred 365 endDay 0
  · intro hfail
    rw [streak_days, streakGo, hfail]
    simp

theorem streak_days_bounded_witness :
    predAny (exampleDaysA 4) = false ∧ streak_days exampleDaysA 4 predAny = 0 :=
  ⟨by decide, (streak_days_bounded exampleDaysA 4 predAny).2 (by decide)⟩

set_option maxRecDepth 4000 in
/-- C2 (counterexample): with activity on every day, the ANY-streak
ending at day 0 returns 366 — greater than the 365 the claim allows. -/
theorem streak_days_reaches_366 :
    streak_days everyDayActive 0 predAny = 366 ∧ ¬ streak_days everyDayActive 0 predAny ≤ 365 := by
  constructor
  · decide
  · decide

/-- C3 (amended): on the spec's example inputs, the ANY-streak for daily
totals `[5,0,3,3,0]` (today = last element) is 0; for `[0,3,3,5]`
(today = 5) the walk counts days 5, 3, 3 and stops at the zero, giving 3
(not 4). -/
theorem streak_spec_examples :
    streak_days exampleDaysA 4 predAny = 0 ∧ streak_days exampleDaysB 3 predAny = 3 := by
  constructor
  · decide
  · decide

/-- C3 (counterexample): the claim's value of 4 for `[0,3,3,5]` is wrong;
the code returns 3. -/
theorem streak_spec_example_not_four : streak_days exampleDaysB 3 predAny ≠ 4 := by
  decide

/-! ## Claim C4: stop computes `duration = end - start` -/

/-- C4: stopping a running session yields a record whose duration is
`end - start` (whose serialised second count is `max 0 (end - start)`),
and `stop(tag)` immediately after `start(tag)` yields
`duration_seconds = end_epoch - start_epoch ≥ 0`.  `parseIso (isoF now1)
= some now1` is the RFC-3339 round trip of the `time` crate. -/
theorem stop_duration (parseIso : String → Option Int) (isoF : Int → String)
    (a b : Active) (endT startT now1 now2 : Int) (s tag : String)
    (htag : tag = "train" ∨ tag = "battle") :
    (a.tagStart tag = some s → parseIso s = some startT →
      (a.stop parseIso isoF endT tag).result
        = .ok (some ⟨tag, s, isoF endT, endT - startT⟩)
      ∧ parse_duration_seconds (ser_dur_iso (endT - startT)) = max (endT - startT) 0)
    ∧ (b.tagStart tag = none → parseIso (isoF now1) = some now1 → now1 ≤ now2 →
      ∃ b1, b.start isoF now1 tag = .ok b1 ∧
        (b1.stop parseIso isoF now2 tag).result
          = .ok (some ⟨tag, isoF now1, isoF now2, now2 - now1⟩)
        ∧ 0 ≤ now2 - now1
        ∧ parse_duration_seconds (ser_dur_iso (now2 - now1)) = now2 - now1) := by
  rcases htag with h | h <;> subst h
  · constructor
    · intro hrun hp
      rw [Active.tagStart, if_pos rfl] at hrun
      refine ⟨by simp [Active.stop, hrun, hp], parse_ser_dur _⟩
    · intro hidle hrt hle
      rw [Active.tagStart, if_pos rfl] at hidle
      refine ⟨{ b with train := some (isoF now1) }, by simp [Active.start, hidle], ?_, ?_, ?_⟩
      · simp [Active.stop, hrt]
      · omega
      · rw [parse_ser_dur]; omega
  · constructor
    · intro hrun hp
      rw [Active.tagStart, if_neg (by decide)] at hrun
      refine ⟨by simp [Active.stop, hrun, hp], parse_ser_dur _⟩
    · intro hidle hrt hle
      rw [Active.tagStart, if_neg (by decide)] at hidle
      refine ⟨{ b with battle := some (isoF now1) }, by simp [Active.start, hidle], ?_, ?_, ?_⟩
      · simp [Active.stop, hrt]
      · omega
      · rw [parse_ser_dur]; omega

theorem stop_duration_witness :
    ∃ b1, Active.start isoF0 ⟨none, none⟩ 5 "train" = .ok b1 ∧
      (b1.stop parseIso0 isoF0 8 "train").result
        = .ok (some ⟨"train", isoF0 5, isoF0 8, 8 - 5⟩)
      ∧ (0 : Int) ≤ 8 - 5
      ∧ parse_duration_seconds (ser_dur_iso (8 - 5)) = 8 - 5 :=
  (stop_duration parseIso0 isoF0 ⟨none, none⟩ ⟨none, none⟩ 0 0 5 8 "x" "train"
    (Or.inl rfl)).2 (by decide) (by decide) (by omega)

/-! ## Claim C5: store round trip -/

/-- C5: a record appended by the store and re-read through
`read_all`/`render_all` reproduces `activity`, `start`, `end` verbatim
and `duration` as the same number of seconds via its ISO-8601 string
form (Session Records have non-negative duration). -/
theorem store_round_trip (e : Entry) (hnn : 0 ≤ e.duration) :
    (entryToJson e).activity = e.activity ∧ (entryToJson e).start = e.start
    ∧ (entryToJson e).end_ = e.end_
    ∧ parse_duration_seconds (entryToJson e).duration = e.duration := by
  refine ⟨rfl, rfl, rfl, ?_⟩
  show parse_duration_seconds (ser_dur_iso e.duration) = e.duration
  rw [parse_ser_dur]
  omega

theorem store_round_trip_witness :
    (0 : Int) ≤ 5400
    ∧ parse_duration_seconds
        (entryToJson ⟨"train", "2024-01-01T00:00:00Z", "2024-01-01T01:30:00Z", 5400⟩).duration
      = 5400 :=
  ⟨by decide,
    (store_round_trip ⟨"train", "2024-01-01T00:00:00Z", "2024-01-01T01:30:00Z", 5400⟩
      (by decide)).2.2.2⟩

/-! ## Claim C6: aggregation is order-independent -/

theorem Totals.add_right_comm (t : Totals) (tag1 tag2 : String) (s1 s2 : Int) :
    (t.add tag1 s1).add tag2 s2 = (t.add tag2 s2).add tag1 s1 := by
  unfold Totals.add
  split_ifs <;> simp [Totals.mk.injEq] <;> omega

theorem aggStep_right_comm (parseDate : String → Option Int)
    (st : Totals × (Int → Totals)) (x y : JsonLine) :
    aggStep parseDate (aggStep parseDate st x) y
      = aggStep parseDate (aggStep parseDate st y) x := by
  unfold aggStep
  cases hx : parseDate x.start <;> cases hy : parseDate y.start <;>
    simp only [hx, hy, Prod.mk.injEq]
  · exact ⟨Totals.add_right_comm _ _ _ _ _, trivial⟩
  · exact ⟨Totals.add_right_comm _ _ _ _ _, trivial⟩
  · exact ⟨Totals.add_right_comm _ _ _ _ _, trivial⟩
  · refine ⟨Totals.add_right_comm _ _ _ _ _, ?_⟩
    funext d
    rcases eq_or_ne d ‹Int› with h | h
    all_goals split_ifs <;> simp_all [Totals.add_right_comm]

/-- C6: the aggregation pass of `render_all` is order-independent — any
permutation of the entry list produces the same all-time totals and the
same per-day totals for every calendar date. -/
theorem aggregate_perm (parseDate : String → Option Int) (l1 l2 : List JsonLine)
    (hp : l1.Perm l2) :
    (aggregate parseDate l1).1 = (aggregate parseDate l2).1
    ∧ ∀ day : Int, (aggregate parseDate l1).2 day = (aggregate parseDate l2).2 day := by
  have h : aggregate parseDate l1 = aggregate parseDate l2 :=
    hp.foldl_eq' (fun x _ y _ st => aggStep_right_comm parseDate st x y) _
  exact ⟨by rw [h], fun day => by rw [h]⟩

theorem aggregate_perm_witness :
    (aggregate parseDate0 [jsonA, jsonB]).1 = (aggregate parseDate0 [jsonB, jsonA]).1
    ∧ (aggregate parseDate0 [jsonA, jsonB]).2 0 = (aggregate parseDate0 [jsonB, jsonA]).2 0 :=
  ⟨(aggregate_perm parseDate0 [jsonA, jsonB] [jsonB, jsonA] (List.Perm.swap jsonB jsonA [])).1,
    (aggregate_perm parseDate0 [jsonA, jsonB] [jsonB, jsonA] (List.Perm.swap jsonB jsonA [])).2 0⟩

/-! ## Claim C7: `start` is idempotent on a running tag -/

/-- C7: calling `start(tag)` while that tag is already RUNNING succeeds
and leaves the whole persisted active state (in particular the stored
start timestamp) unchanged — the function returns before calling
`save`. -/
theorem start_idempotent (isoF : Int → String) (a : Active) (now : Int) (tag s : String)
    (htag : tag = "train" ∨ tag = "battle") (hrun : a.tagStart tag = some s) :
    a.start isoF now tag = .ok a := by
  rcases htag with h | h <;> subst h
  · rw [Active.tagStart, if_pos rfl] at hrun
    simp [Active.start, hrun]
  · rw [Active.tagStart, if_neg (by decide)] at hrun
    simp [Active.start, hrun]

theorem start_idempotent_witness :
    Active.tagStart ⟨some "2024-01-01T00:00:00Z", none⟩ "train" = some "2024-01-01T00:00:00Z"
    ∧ Active.start isoF0 ⟨some "2024-01-01T00:00:00Z", none⟩ 5 "train"
      = .ok ⟨some "2024-01-01T00:00:00Z", none⟩ :=
  ⟨by decide,
    start_idempotent isoF0 ⟨some "2024-01-01T00:00:00Z", none⟩ 5 "train"
      "2024-01-01T00:00:00Z" (Or.inl rfl) (by decide)⟩

/-! ## Claim C8: stop with no running session; unknown tags -/

/-- C8: `stop(tag)` on a valid tag with no running session returns the
"no active session" outcome `Ok(None)` — no record is produced and the
state file is not rewritten; an unrecognized tag makes both `stop` and
`start` fail with the `unknown tag` (InvalidTag) error. -/
theorem stop_no_active (parseIso : String → Option Int) (isoF : Int → String)
    (a : Active) (endT now : Int) (tag : String) :
    ((tag = "train" ∨ tag = "battle") → a.tagStart tag = none →
      a.stop parseIso isoF endT tag = ⟨none, .ok none⟩)
    ∧ (tag ≠ "train" → tag ≠ "battle" →
      a.stop parseIso isoF endT tag = ⟨none, .error (.unknownTag tag)⟩
      ∧ a.start isoF now tag = .error (.unknownTag tag)) := by
  constructor
  · intro htag hnone
    rcases htag with h | h <;> subst h
    · rw [Active.tagStart, if_pos rfl] at hnone
      simp [Active.stop, hnone]
    · rw [Active.tagStart, if_neg (by decide)] at hnone
      simp [Active.stop, hnone]
  · intro h1 h2
    constructor
    · simp [Active.stop, h1, h2]
    · simp [Active.start, h1, h2]

theorem stop_no_active_witness :
    Active.tagStart ⟨none, none⟩ "train" = none
    ∧ Active.stop parseIso0 isoF0 ⟨none, none⟩ 8 "train" = ⟨none, .ok none⟩ :=
  ⟨by decide,
    (stop_no_active parseIso0 isoF0 ⟨none, none⟩ 8 0 "train").1 (Or.inl rfl) (by decide)⟩

/-! ## Claim C9: starting one tag while the other is running -/

/-- C9: `start(tag)` while the *other* tag is RUNNING (and the requested
tag is idle) succeeds, sets the requested tag's start to the current
time, and leaves the other tag's stored start untouched — both tags are
simultaneously open in the resulting state. -/
theorem start_other_running (isoF : Int → String) (a : Active) (now : Int) (s : String) :
    (a.train = none → a.battle = some s →
      a.start isoF now "train" = .ok ⟨some (isoF now), some s⟩)
    ∧ (a.battle = none → a.train = some s →
      a.start isoF now "battle" = .ok ⟨some s, some (isoF now)⟩) := by
  constructor
  · intro h1 h2
    simp [Active.start, h1, h2]
  · intro h1 h2
    simp [Active.start, h1, h2]

theorem start_other_running_witness :
    Active.start isoF0 ⟨none, some "2024-01-01T00:00:00Z"⟩ 5 "train"
      = .ok ⟨some (isoF0 5), some "2024-01-01T00:00:00Z"⟩ :=
  (start_other_running isoF0 ⟨none, some "2024-01-01T00:00:00Z"⟩ 5
    "2024-01-01T00:00:00Z").1 rfl rfl

/-! ## Claim C10: stop on an unparsable stored start -/

/-- C10: if the tag is RUNNING but its stored start string does not parse
as RFC-3339, `stop` has already persisted the cleared state (the `save`
precedes the parse), then returns the parse error: the session timestamp
is erased from the state file and no record is ever produced. -/
theorem stop_corrupt_state (parseIso : String → Option Int) (isoF : Int → String)
    (a : Active) (endT : Int) (tag s : String)
    (htag : tag = "train" ∨ tag = "battle")
    (hrun : a.tagStart tag = some s) (hbad : parseIso s = none) :
    a.stop parseIso isoF endT tag = ⟨some (a.clearTag tag), .error .parseError⟩ := by
  rcases htag with h | h <;> subst h
  · rw [Active.tagStart, if_pos rfl] at hrun
    simp [Active.stop, Active.clearTag, hrun, hbad]
  · rw [Active.tagStart, if_neg (by decide)] at hrun
    simp [Active.stop, Active.clearTag, hrun, hbad]

theorem stop_corrupt_state_witness :
    Active.tagStart ⟨some "not-a-timestamp", none⟩ "train" = some "not-a-timestamp"
    ∧ parseIsoNone "not-a-timestamp" = none
    ∧ Active.stop parseIsoNone isoF0 ⟨some "not-a-timestamp", none⟩ 8 "train"
      = ⟨some ⟨none, none⟩, .error .parseError⟩ :=
  ⟨by decide, rfl,
    stop_corrupt_state parseIsoNone isoF0 ⟨some "not-a-timestamp", none⟩ 8 "train"
      "not-a-timestamp" (Or.inl rfl) (by decide) rfl⟩

end Blazectl
